import Mathlib

/-!
Verification of the CLI option layer of ColorWallpaper (`src/CLI.py`).

The typed parsers (`resolution`, `positive`, `in_range`, `fix_casing`), the
argument schema of `get_options`, and the color-constraint resolution loop at
the end of `get_options` are shallowly embedded below.  Python `float` values
are modelled as rationals (`ℚ`); the external `Color` class (not part of this
repository's source tree) is kept abstract, following the design which treats
it as an opaque collaborator supplying `contrast`, `invert`, `random` and
`from_str`.
-/

deriving instance DecidableEq for Except

namespace CLI

/-- The two numeric kinds that the CLI binds to its numeric parsers:
Python's `int` and `float` types. -/
inductive NumKind where
  | int
  | float
deriving DecidableEq, Repr

/-- Truncation of a rational toward zero, the behaviour of Python's `int()`
applied to a float: `q.num.tdiv q.den` divides the (exact) numerator by the
positive denominator rounding toward zero. -/
def ratTrunc (q : ℚ) : ℤ :=
  q.num.tdiv q.den

/-- Application of a `NumKind` to an already-parsed float, i.e. `typ(float(arg))`
in `CLI.py`: `int` truncates toward zero, `float` is the identity. -/
def convert : NumKind → ℚ → ℚ
  | .int, q => (ratTrunc q : ℚ)
  | .float, q => q

/-- Embedding of `typed_positive` (CLI.py lines 41-43): `max(1, typ(float(arg)))`,
applied to the parsed float value of the argument. -/
def positive (typ : NumKind) (q : ℚ) : ℚ :=
  max 1 (convert typ q)

/-- The error raised by the range parser, carrying the converted value and the
(sorted) bounds that appear in its message
`'"{arg}" must be in range ({low}, {high})'`. -/
inductive RangeError where
  | outOfRange (value low high : ℚ)
deriving DecidableEq, Repr

/-- Embedding of `in_range` / `is_in_range` (CLI.py lines 48-68): the bounds are
sorted (`low, high = sorted((low, high))`, i.e. replaced by their `min` and
`max`), the argument's parsed float value is converted by `typ`, and a value
strictly outside the closed interval raises. -/
def in_range (typ : NumKind) (low high : ℚ) (q : ℚ) : Except RangeError ℚ :=
  if ¬ (min low high ≤ convert typ q ∧ convert typ q ≤ max low high) then
    .error (.outOfRange (convert typ q) (min low high) (max low high))
  else .ok (convert typ q)

/-- Python's `str.lower()` (ASCII case mapping), used by `fix_casing`. -/
def strLower (s : String) : String :=
  ⟨s.data.map Char.toLower⟩

/-- The two failures that `cased` can raise: an input matching no canonical
spelling even case-insensitively (`Invalid choice: ...`), and an input whose
lower-casing ties several case-variant canonical spellings
(`Ambiguous choice: ...`, whose message names the candidate list). -/
inductive CasingError where
  | invalidChoice (arg : String) (names : List String)
  | ambiguousChoice (arg : String) (candidates : List String)
deriving DecidableEq, Repr

/-- `low_names` of CLI.py line 88: every canonical spelling lower-cased. -/
def lowNames (names : List String) : List String :=
  names.map strLower

/-- Membership test in `duplicate_names` of CLI.py line 93: the lower-cased
spellings that occur more than once among `low_names`. -/
def isDuplicateLow (names : List String) (n : String) : Bool :=
  decide (1 < (lowNames names).count n)

/-- Python `int()` of a non-empty decimal digit string, as produced by
`int_tuple` (from `common`, applied to the two regex groups): the usual
base-10 value of the digits. -/
def digitsVal (l : List Char) : ℕ :=
  l.foldl (fun a c => 10 * a + (c.toNat - 48)) 0

/-- Core of the `resolution_re.fullmatch` test (CLI.py line 16), on the
character list of the argument: the regex `\s*(\d+)\s*[x:]\s*(\d+)\s*` full
match.  Because the digit class, the whitespace class and the separator class
are pairwise disjoint, the regex is matched by maximal-munch scanning:
leading whitespace, a non-empty digit group, whitespace, one separator
(`x` or `:`), whitespace, a second non-empty digit group, and trailing
whitespace reaching the end of the input. -/
def resolutionParseList (l : List Char) : Option (ℕ × ℕ) :=
  if ((l.dropWhile Char.isWhitespace).takeWhile Char.isDigit).isEmpty then none
  else
    match (((l.dropWhile Char.isWhitespace).dropWhile Char.isDigit).dropWhile
        Char.isWhitespace) with
    | [] => none
    | sep :: l2 =>
      if sep = 'x' ∨ sep = ':' then
        if ((l2.dropWhile Char.isWhitespace).takeWhile Char.isDigit).isEmpty then
          none
        else if (((l2.dropWhile Char.isWhitespace).dropWhile Char.isDigit).dropWhile
            Char.isWhitespace).isEmpty then
          some (digitsVal ((l.dropWhile Char.isWhitespace).takeWhile Char.isDigit),
            digitsVal ((l2.dropWhile Char.isWhitespace).takeWhile Char.isDigit))
        else none
      else none

/-- The two regex groups of a full match of `resolution_re`, converted to
integers by `int_tuple`; `none` when the regex does not fully match. -/
def resolutionParse (s : String) : Option (ℕ × ℕ) :=
  resolutionParseList s.data

/-- Embedding of `resolution` (CLI.py lines 19-31): a failed full match raises
"Unable to parse the resolution"; a dimension below 150 raises "Minimal
resolution is 150x150"; otherwise the parsed pair is returned. -/
def resolution (arg : String) : Except String (ℕ × ℕ) :=
  match resolutionParse arg with
  | none => .error "Unable to parse the resolution"
  | some res =>
    if res.1 < 150 ∨ res.2 < 150 then .error "Minimal resolution is 150x150"
    else .ok res

/-- A (possibly empty) run of whitespace characters, i.e. a match of `\s*`. -/
def IsSpaceRun (l : List Char) : Prop :=
  ∀ c ∈ l, c.isWhitespace = true

/-- A non-empty run of digit characters, i.e. a match of `\d+`. -/
def IsDigitRun (l : List Char) : Prop :=
  l ≠ [] ∧ ∀ c ∈ l, c.isDigit = true

/-- Declarative semantics of a full match of the pattern
`\s*(\d+)\s*[x:]\s*(\d+)\s*` against `s`, with group values `w` and `h`:
the input decomposes into whitespace, a first digit group evaluating to `w`,
whitespace, a separator `x` or `:`, whitespace, a second digit group
evaluating to `h`, and trailing whitespace. -/
def MatchesResolution (s : String) (w h : ℕ) : Prop :=
  ∃ ws1 d1 ws2 sep ws3 d2 ws4,
    s.data = ws1 ++ d1 ++ ws2 ++ sep :: (ws3 ++ d2 ++ ws4) ∧
    IsSpaceRun ws1 ∧ IsDigitRun d1 ∧ IsSpaceRun ws2 ∧
    (sep = 'x' ∨ sep = ':') ∧
    IsSpaceRun ws3 ∧ IsDigitRun d2 ∧ IsSpaceRun ws4 ∧
    w = digitsVal d1 ∧ h = digitsVal d2

/-- Embedding of `cased`, the inner function of `fix_casing`
(CLI.py lines 82-104): reject inputs matching no lower-cased spelling; exact
matches win outright (`names[names.index(arg)]`); otherwise a unique
case-insensitive match resolves to the canonical spelling at the first matching
lower-cased index; a lower-cased duplicate is an ambiguous choice, reported
with the candidates `[name for name in names if name.lower() in
duplicate_names and name.lower() == arg.lower()]`. -/
def cased (names : List String) (arg : String) : Except CasingError String :=
  if ¬ strLower arg ∈ lowNames names then
    .error (.invalidChoice arg names)
  else if arg ∈ names then
    .ok (names.getD (names.indexOf arg) "")
  else if isDuplicateLow names (strLower arg) = false then
    .ok (names.getD ((lowNames names).indexOf (strLower arg)) "")
  else
    .error (.ambiguousChoice arg
      (names.filter fun name =>
        isDuplicateLow names (strLower name) && (strLower name == strLower arg)))

/-- Modelled from the spec: `normalized` comes from the `common` module, which
is not part of this repository's source tree.  The spec only uses it to
recognise the sentinel strings "random" and "inverted" in the color specs, so
it is modelled as case normalisation. -/
def normalized (s : String) : String :=
  strLower s

/-- Outcome of the color-resolution phase of `get_options`
(CLI.py lines 185-215), over an abstract color type: a resolved
`(color, color2)` pair, the fatal `RuntimeError` of lines 196-199 (whose
message carries the two colors and their measured contrast), a color-parsing
failure (`Color.from_str` raising), or exhaustion of the supplied stream of
random draws (the unbounded retry loops of the source). -/
inductive ResolveOutcome (Color : Type) where
  | resolved (color color2 : Color)
  | fatalContrast (color overlay : Color) (measured : ℚ)
  | parseError
  | outOfFuel
deriving DecidableEq

/-- The inner `while ret.color / ret.overlay_color < ret.overlay_contrast`
loop of CLI.py lines 201-202: re-draw the color from the stream of random
draws until its contrast with the overlay reaches the threshold, returning the
final color and the unconsumed draws (`none` when the stream runs out). -/
def overlayLoop {Color : Type} (contrast : Color → Color → ℚ) (overlay : Color)
    (oc : ℚ) : Color → List Color → Option (Color × List Color)
  | c, draws =>
    if contrast c overlay < oc then
      match draws with
      | [] => none
      | d :: rest => overlayLoop contrast overlay oc d rest
    else some (c, draws)

/-- The highlight-resolution step of each loop iteration (CLI.py lines
204-213): with the `inverted` sentinel, derive the highlight by
`Color.inverted(min_contrast)` and finish, or on failure re-draw the
background (`Sum.inr` hands the next draw back to the loop); without the
sentinel, finish with the parse of the explicit `color2` spec. -/
def resolveHighlight {Color : Type} (invert : Color → ℚ → Option Color)
    (inverted : Bool) (mc : ℚ) (color2Parsed : Option Color) (c : Color)
    (draws : List Color) : ResolveOutcome Color ⊕ (Color × List Color) :=
  if inverted then
    match invert c mc with
    | some c2 => .inl (.resolved c c2)
    | none =>
      match draws with
      | [] => .inl .outOfFuel
      | d :: rest => .inr (d, rest)
  else
    match color2Parsed with
    | none => .inl .parseError
    | some c2 => .inl (.resolved c c2)

/-- A single iteration of the `while True` loop of CLI.py lines 193-213:
when an overlay is present, a non-random color below the overlay threshold is
the fatal error of lines 196-199, and otherwise the color is re-drawn until
the threshold holds (lines 201-202); then the highlight step runs.
`Sum.inl` is a terminal outcome, `Sum.inr` the state for the next
iteration. -/
def resolveIter {Color : Type} (contrast : Color → Color → ℚ)
    (invert : Color → ℚ → Option Color) (random inverted : Bool)
    (overlay : Option Color) (oc mc : ℚ) (color2Parsed : Option Color)
    (c : Color) (draws : List Color) :
    ResolveOutcome Color ⊕ (Color × List Color) :=
  match overlay with
  | none => resolveHighlight invert inverted mc color2Parsed c draws
  | some o =>
    if random = false ∧ contrast c o < oc then
      .inl (.fatalContrast c o (contrast c o))
    else
      match overlayLoop contrast o oc c draws with
      | none => .inl .outOfFuel
      | some (c', draws') => resolveHighlight invert inverted mc color2Parsed c' draws'

/-- The `while True` loop of CLI.py lines 193-213, parameterised by the
already-computed `random` and `inverted` sentinel flags (lines 185-186), the
parsed overlay color, the two thresholds, and the parse of the explicit
`color2` spec.  `fuel` bounds the number of outer iterations, and each random
draw consumes one element of `draws`. -/
def resolveLoop {Color : Type} (contrast : Color → Color → ℚ)
    (invert : Color → ℚ → Option Color) (random inverted : Bool)
    (overlay : Option Color) (oc mc : ℚ) (color2Parsed : Option Color) :
    ℕ → Color → List Color → ResolveOutcome Color
  | 0, _, _ => .outOfFuel
  | fuel + 1, c, draws =>
    match resolveIter contrast invert random inverted overlay oc mc color2Parsed
        c draws with
    | .inl out => out
    | .inr (d, rest) =>
      resolveLoop contrast invert random inverted overlay oc mc color2Parsed
        fuel d rest

/-- Embedding of the whole color-resolution phase of `get_options`
(CLI.py lines 185-215): compute the `random`/`inverted` sentinel flags from
the raw specs, resolve the initial background (a random draw for the "random"
sentinel, otherwise `Color.from_str`), and run the retry loop. -/
def resolveColors {Color : Type} (contrast : Color → Color → ℚ)
    (invert : Color → ℚ → Option Color) (fromStr : String → Option Color)
    (colorSpec color2Spec : String) (overlay : Option Color) (oc mc : ℚ)
    (fuel : ℕ) (draws : List Color) : ResolveOutcome Color :=
  if normalized colorSpec == "random" then
    match draws with
    | [] => .outOfFuel
    | d :: rest =>
      resolveLoop contrast invert true (normalized color2Spec == "inverted")
        overlay oc mc (fromStr color2Spec) fuel d rest
  else
    match fromStr colorSpec with
    | none => .parseError
    | some c =>
      resolveLoop contrast invert false (normalized color2Spec == "inverted")
        overlay oc mc (fromStr color2Spec) fuel c draws

/-- Modelled from the spec: Python's builtin `float` applied to a CLI token
(the numeric parsers all start with `float(arg)`), restricted to plain decimal
notation — an optional fractional part after a dot — on an unsigned body. -/
def parseDecimalCore (l : List Char) : Option ℚ :=
  match l.dropWhile Char.isDigit with
  | [] =>
    if (l.takeWhile Char.isDigit).isEmpty then none
    else some ((digitsVal (l.takeWhile Char.isDigit) : ℕ) : ℚ)
  | '.' :: fr =>
    if fr.all Char.isDigit && !((l.takeWhile Char.isDigit).isEmpty && fr.isEmpty) then
      some (((digitsVal (l.takeWhile Char.isDigit) : ℕ) : ℚ) +
        ((digitsVal fr : ℕ) : ℚ) / ((10 : ℚ) ^ fr.length))
    else none
  | _ => none

/-- Modelled from the spec: Python's builtin `float` on a full token, adding an
optional leading sign to the decimal body. -/
def parseFloat? (s : String) : Option ℚ :=
  match s.data with
  | '-' :: rest => (parseDecimalCore rest).map (fun q => -q)
  | '+' :: rest => parseDecimalCore rest
  | l => parseDecimalCore l

/-- The raw result of the `argparse` schema of CLI.py lines 115-183: one field
per declared flag, holding the parsed value or the declared default.  The raw
color specs stay strings, and the `--overlay-color` value is likewise kept as
the raw token here, since `Color.from_str` belongs to the external color
collaborator. -/
structure Options where
  output : String := "out.png"
  yes : Bool := false
  color : String := "random"
  color2 : String := "inverted"
  display : Option String := none
  min_contrast : ℚ := 1
  overlay_color : Option String := none
  overlay_contrast : ℚ := 1
  resolution : ℕ × ℕ := (1920, 1080)
  scale : ℚ := 3
  formats : List String := ["empty", "HEX", "rgb"]
deriving DecidableEq, Repr

/-- The canonical format spellings bound to `-f` (`--formats`)
(CLI.py line 176). -/
def formatNames : List String :=
  ["empty", "hex", "#hex", "HEX", "#HEX", "rgb", "hsv", "hsl", "cmyk"]

/-- The parse-time failures of the schema, wrapping each bound parser's
error. -/
inductive CLIError where
  | badResolution (msg : String)
  | badChoice (e : CasingError)
  | outOfRange (e : RangeError)
  | badFloat (arg : String)
  | unrecognized (arg : String)
  | missingValue (flag : String)
deriving DecidableEq, Repr

/-- The `argparse` test for an option-looking token: it starts with the
prefix character `-`. -/
def looksLikeFlag (t : String) : Bool :=
  match t.data with
  | [] => false
  | c :: _ => c = '-'

/-- Embedding of the `argparse` schema of `get_options` (CLI.py lines
115-183): the argument list is processed left to right; each value flag
consumes the following token and runs its bound parser (`resolution`,
`positive(int)` composed with `float`, `in_range(float, 1, 21)` composed with
`float`, or the identity for strings), `-y` (`--yes`) is a boolean flag, and
`-f` (`--formats`) consumes one-or-more following non-flag tokens, each fixed by
the enumeration matcher over `formatNames`.  Omitted flags keep their declared
defaults. -/
def parseArgsGo : ℕ → Options → List String → Except CLIError Options
  | 0, opts, _ => .ok opts
  | _ + 1, opts, [] => .ok opts
  | n + 1, opts, a :: rest =>
    if a = "-o" ∨ a = "--output" then
      match rest with
      | [] => .error (.missingValue a)
      | v :: rest' => parseArgsGo n { opts with output := v } rest'
    else if a = "-y" ∨ a = "--yes" then
      parseArgsGo n { opts with yes := true } rest
    else if a = "-c" ∨ a = "--color" then
      match rest with
      | [] => .error (.missingValue a)
      | v :: rest' => parseArgsGo n { opts with color := v } rest'
    else if a = "-c2" ∨ a = "--color2" then
      match rest with
      | [] => .error (.missingValue a)
      | v :: rest' => parseArgsGo n { opts with color2 := v } rest'
    else if a = "-d" ∨ a = "--display" then
      match rest with
      | [] => .error (.missingValue a)
      | v :: rest' => parseArgsGo n { opts with display := some v } rest'
    else if a = "--min-contrast" then
      match rest with
      | [] => .error (.missingValue a)
      | v :: rest' =>
        match parseFloat? v with
        | none => .error (.badFloat v)
        | some q =>
          match in_range .float 1 21 q with
          | .error e => .error (.outOfRange e)
          | .ok x => parseArgsGo n { opts with min_contrast := x } rest'
    else if a = "--overlay-color" then
      match rest with
      | [] => .error (.missingValue a)
      | v :: rest' => parseArgsGo n { opts with overlay_color := some v } rest'
    else if a = "--overlay-contrast" then
      match rest with
      | [] => .error (.missingValue a)
      | v :: rest' =>
        match parseFloat? v with
        | none => .error (.badFloat v)
        | some q =>
          match in_range .float 1 21 q with
          | .error e => .error (.outOfRange e)
          | .ok x => parseArgsGo n { opts with overlay_contrast := x } rest'
    else if a = "-r" ∨ a = "--resolution" then
      match rest with
      | [] => .error (.missingValue a)
      | v :: rest' =>
        match resolution v with
        | .error msg => .error (.badResolution msg)
        | .ok res => parseArgsGo n { opts with resolution := res } rest'
    else if a = "-s" ∨ a = "--scale" then
      match rest with
      | [] => .error (.missingValue a)
      | v :: rest' =>
        match parseFloat? v with
        | none => .error (.badFloat v)
        | some q => parseArgsGo n { opts with scale := positive .int q } rest'
    else if a = "-f" ∨ a = "--formats" then
      match rest.takeWhile (fun t => !looksLikeFlag t) with
      | [] => .error (.missingValue a)
      | v :: vs =>
        match (v :: vs).mapM (cased formatNames) with
        | .error e => .error (.badChoice e)
        | .ok fixed =>
          parseArgsGo n { opts with formats := fixed }
            (rest.dropWhile (fun t => !looksLikeFlag t))
    else .error (.unrecognized a)

/-- The `argparse` run on a full argument list: the fuel of `parseArgsGo` is
the argument count, which each step strictly exceeds the arguments it leaves,
so the fuel never runs out. -/
def parseArgs (opts : Options) (args : List String) : Except CLIError Options :=
  parseArgsGo args.length opts args

/-- A toy color space (colors are naturals) with a concrete contrast measure,
used to instantiate the abstract resolver theorems on concrete runs. -/
def contrastW (a b : ℕ) : ℚ :=
  ((max a b - min a b : ℕ) : ℚ)

/-- A toy inversion for the toy color space: succeeds with `c + 1` exactly
when the requested minimum contrast is at most `c`. -/
def invertW (c : ℕ) (mc : ℚ) : Option ℕ :=
  if mc ≤ (c : ℚ) then some (c + 1) else none

/-- A toy `Color.from_str` for the toy color space: parses the two explicit
spellings "c1" and "c7". -/
def fromStrW (s : String) : Option ℕ :=
  if s = "c1" then some 1 else if s = "c7" then some 7 else none

end CLI

namespace CLI

/-! ## Theorems -/

/-- Truncation toward zero agrees with the floor on non-negative rationals. -/
theorem ratTrunc_eq_floor_of_nonneg (q : ℚ) (h : 0 ≤ q) : ratTrunc q = ⌊q⌋ := by
  rw [ratTrunc, Int.tdiv_eq_ediv (Rat.num_nonneg.mpr h) (Int.natCast_nonneg q.den),
    Rat.floor_def]

/-- C5: for every kind and bounds `low`, `high` (in either order), `in_range`
first sorts the bounds, then accepts exactly those parsed values whose
conversion lies in the closed interval `[min low high, max low high]`, and
raises a descriptive out-of-range error (carrying the converted value and the
sorted bounds) exactly when the conversion lies strictly outside it. -/
theorem in_range_spec (typ : NumKind) (low high q : ℚ) :
    (∀ v, in_range typ low high q = .ok v ↔
      (v = convert typ q ∧ min low high ≤ v ∧ v ≤ max low high)) ∧
    (in_range typ low high q =
        .error (.outOfRange (convert typ q) (min low high) (max low high)) ↔
      (convert typ q < min low high ∨ max low high < convert typ q)) := by
  have hnot : ¬ (min low high ≤ convert typ q ∧ convert typ q ≤ max low high) ↔
      (convert typ q < min low high ∨ max low high < convert typ q) := by
    rw [not_and_or, not_le, not_le]
  by_cases h : min low high ≤ convert typ q ∧ convert typ q ≤ max low high
  · constructor
    · intro v
      rw [in_range, if_neg (not_not_intro h)]
      constructor
      · intro hok
        exact ⟨(Except.ok.injEq _ _ ▸ hok).symm, ((Except.ok.injEq _ _ ▸ hok) ▸ h :)⟩
      · rintro ⟨rfl, -⟩
        rfl
    · rw [in_range, if_neg (not_not_intro h)]
      constructor
      · intro hok
        exact absurd hok (by simp)
      · intro hlt
        exact absurd (hnot.mpr hlt) (not_not_intro h)
  · constructor
    · intro v
      rw [in_range, if_pos h]
      constructor
      · intro hok
        exact absurd hok (by simp)
      · rintro ⟨rfl, hb⟩
        exact absurd hb h
    · rw [in_range, if_pos h]
      exact ⟨fun _ => hnot.mp h, fun _ => rfl⟩

/-- Witness for C5: `in_range(float, 1, 21)` accepts the value 9/2. -/
theorem in_range_spec_witness :
    in_range .float 1 21 (Rat.divInt 9 2) = .ok (Rat.divInt 9 2) :=
  ((in_range_spec .float 1 21 (Rat.divInt 9 2)).1 (Rat.divInt 9 2)).mpr
    ⟨rfl, by decide, by decide⟩

/-- C6: for every float-parseable input, `positive` returns a value that is at
least 1 (values below 1 are silently clamped), and `positive(int)` applied to
the parse of "0.4", i.e. the rational 2/5, yields 1. -/
theorem positive_ge_one :
    (∀ typ : NumKind, ∀ q : ℚ, 1 ≤ positive typ q) ∧
      positive .int (2/5 : ℚ) = 1 := by
  constructor
  · intro typ q
    exact le_max_left 1 _
  · rw [show (2/5 : ℚ) = Rat.divInt 2 5 by rw [Rat.divInt_eq_div]; norm_num]
    decide

/-- C10: `positive(int)` truncates the parsed float toward zero before clamping
at 1, so on any parsed value at least 1 it returns the integer part (the
floor), while `positive(float)` returns the value unchanged; in particular the
parse of "2.9" yields 2 under `int`. -/
theorem positive_int_truncates (q : ℚ) (h : 1 ≤ q) :
    positive .int q = (⌊q⌋ : ℚ) ∧ positive .float q = q ∧
      positive .int (29/10 : ℚ) = 2 := by
  have hq0 : (0 : ℚ) ≤ q := le_trans zero_le_one h
  have hfl : (1 : ℤ) ≤ ⌊q⌋ := by
    rw [Int.le_floor]
    exact_mod_cast h
  refine ⟨?_, ?_, ?_⟩
  · rw [positive, convert, ratTrunc_eq_floor_of_nonneg q hq0,
      max_eq_right (by exact_mod_cast hfl)]
  · rw [positive, convert, max_eq_right h]
  · rw [show (29/10 : ℚ) = Rat.divInt 29 10 by rw [Rat.divInt_eq_div]; norm_num]
    decide

/-- Witness for C10 at the concrete parsed value 29/10. -/
theorem positive_int_truncates_witness :
    positive .int (Rat.divInt 29 10) = (⌊(Rat.divInt 29 10 : ℚ)⌋ : ℚ) ∧
      positive .float (Rat.divInt 29 10) = Rat.divInt 29 10 ∧
      positive .int (29/10 : ℚ) = 2 :=
  positive_int_truncates (Rat.divInt 29 10) (by decide)

/-- A digit character is not whitespace. -/
theorem isWhitespace_eq_false_of_isDigit {c : Char} (h : c.isDigit = true) :
    c.isWhitespace = false := by
  rcases hw : c.isWhitespace with _ | _
  · rfl
  · exfalso
    have hc : c = ' ' ∨ c = '\t' ∨ c = '\r' ∨ c = '\n' := by
      have hw' := hw
      simp only [Char.isWhitespace, Bool.or_eq_true, decide_eq_true_eq] at hw'
      tauto
    rcases hc with rfl | rfl | rfl | rfl <;> exact absurd h (by decide)

/-- A whitespace character is not a digit. -/
theorem isDigit_eq_false_of_isWhitespace {c : Char} (h : c.isWhitespace = true) :
    c.isDigit = false := by
  rcases hd : c.isDigit with _ | _
  · rfl
  · rw [isWhitespace_eq_false_of_isDigit hd] at h
    exact absurd h (by simp)

/-- The separator characters of the resolution regex are not digits. -/
theorem sep_isDigit_eq_false {sep : Char} (h : sep = 'x' ∨ sep = ':') :
    sep.isDigit = false := by
  rcases h with rfl | rfl <;> decide

/-- The separator characters of the resolution regex are not whitespace. -/
theorem sep_isWhitespace_eq_false {sep : Char} (h : sep = 'x' ∨ sep = ':') :
    sep.isWhitespace = false := by
  rcases h with rfl | rfl <;> decide

/-- `dropWhile` consumes exactly a leading run of satisfying elements when the
remainder starts with a failing element (or is empty). -/
theorem dropWhile_append_run {p : Char → Bool} {l1 l2 : List Char}
    (h1 : ∀ c ∈ l1, p c = true) (h2 : ∀ c, l2.head? = some c → p c = false) :
    (l1 ++ l2).dropWhile p = l2 := by
  induction l1 with
  | nil =>
    cases l2 with
    | nil => rfl
    | cons c t => simp [List.dropWhile_cons, h2 c rfl]
  | cons a t ih =>
    have ha : p a = true := h1 a (by simp)
    simp only [List.cons_append, List.dropWhile_cons, ha, if_pos]
    exact ih (fun c hc => h1 c (by simp [hc]))

/-- `takeWhile` returns exactly a leading run of satisfying elements when the
remainder starts with a failing element (or is empty). -/
theorem takeWhile_append_run {p : Char → Bool} {l1 l2 : List Char}
    (h1 : ∀ c ∈ l1, p c = true) (h2 : ∀ c, l2.head? = some c → p c = false) :
    (l1 ++ l2).takeWhile p = l1 := by
  induction l1 with
  | nil =>
    cases l2 with
    | nil => rfl
    | cons c t => simp [List.takeWhile_cons, h2 c rfl]
  | cons a t ih =>
    have ha : p a = true := h1 a (by simp)
    simp only [List.cons_append, List.takeWhile_cons, ha, if_pos]
    rw [ih (fun c hc => h1 c (by simp [hc]))]

/-- The head of a whitespace run followed by a separator is never a digit. -/
theorem head_not_digit_of_space_sep {ws : List Char} {sep : Char} {l : List Char}
    (hws : IsSpaceRun ws) (hsep : sep = 'x' ∨ sep = ':') :
    ∀ c, (ws ++ sep :: l).head? = some c → c.isDigit = false := by
  intro c hc
  cases ws with
  | nil =>
    simp only [List.nil_append, List.head?_cons, Option.some.injEq] at hc
    exact hc ▸ sep_isDigit_eq_false hsep
  | cons a t =>
    simp only [List.cons_append, List.head?_cons, Option.some.injEq] at hc
    exact hc ▸ isDigit_eq_false_of_isWhitespace (hws a (by simp))

/-- The head of a pure whitespace run is never a digit. -/
theorem head_not_digit_of_space_run {ws : List Char}
    (hws : IsSpaceRun ws) :
    ∀ c, ws.head? = some c → c.isDigit = false := by
  intro c hc
  cases ws with
  | nil => exact absurd hc (by simp)
  | cons a t =>
    simp only [List.head?_cons, Option.some.injEq] at hc
    exact hc ▸ isDigit_eq_false_of_isWhitespace (hws a (by simp))

/-- The head of a non-empty digit run followed by anything is never
whitespace. -/
theorem head_not_space_of_digit_run {d : List Char} {l : List Char}
    (hd : IsDigitRun d) :
    ∀ c, (d ++ l).head? = some c → c.isWhitespace = false := by
  intro c hc
  rcases hd with ⟨hne, hall⟩
  cases d with
  | nil => exact absurd rfl hne
  | cons a t =>
    simp only [List.cons_append, List.head?_cons, Option.some.injEq] at hc
    exact hc ▸ isWhitespace_eq_false_of_isDigit (hall a (by simp))

/-- The resolution regex matcher succeeds with `(w, h)` exactly on character
lists that decompose as a full match of `\s*(\d+)\s*[x:]\s*(\d+)\s*` with
group values `w` and `h`. -/
theorem resolutionParseList_eq_some_iff (l : List Char) (w h : ℕ) :
    resolutionParseList l = some (w, h) ↔
      (∃ ws1 d1 ws2 sep ws3 d2 ws4,
        l = ws1 ++ d1 ++ ws2 ++ sep :: (ws3 ++ d2 ++ ws4) ∧
        IsSpaceRun ws1 ∧ IsDigitRun d1 ∧ IsSpaceRun ws2 ∧
        (sep = 'x' ∨ sep = ':') ∧
        IsSpaceRun ws3 ∧ IsDigitRun d2 ∧ IsSpaceRun ws4 ∧
        w = digitsVal d1 ∧ h = digitsVal d2) := by
  constructor
  · intro hp
    unfold resolutionParseList at hp
    split at hp
    · exact absurd hp (by simp)
    · rename_i hd1
      split at hp
      · exact absurd hp (by simp)
      · rename_i x sep l2 hl1
        split at hp
        · rename_i hsep
          split at hp
          · exact absurd hp (by simp)
          · rename_i hd2
            split at hp
            · rename_i hl4
              rw [Option.some.injEq] at hp
              obtain ⟨hw, hh⟩ := Prod.mk.inj hp
              subst hw
              subst hh
              refine ⟨l.takeWhile Char.isWhitespace,
                (l.dropWhile Char.isWhitespace).takeWhile Char.isDigit,
                ((l.dropWhile Char.isWhitespace).dropWhile Char.isDigit).takeWhile
                  Char.isWhitespace,
                sep,
                l2.takeWhile Char.isWhitespace,
                (l2.dropWhile Char.isWhitespace).takeWhile Char.isDigit,
                (l2.dropWhile Char.isWhitespace).dropWhile Char.isDigit,
                ?_, ?_, ?_, ?_, hsep, ?_, ?_, ?_, rfl, rfl⟩
              · simp only [List.append_assoc, List.cons_append,
                  List.takeWhile_append_dropWhile]
                rw [← hl1]
                simp only [List.takeWhile_append_dropWhile]
              · exact fun c hc => List.mem_takeWhile_imp hc
              · refine ⟨by simpa [List.isEmpty_eq_false] using hd1,
                  fun c hc => List.mem_takeWhile_imp hc⟩
              · exact fun c hc => List.mem_takeWhile_imp hc
              · exact fun c hc => List.mem_takeWhile_imp hc
              · refine ⟨by simpa [List.isEmpty_eq_false] using hd2,
                  fun c hc => List.mem_takeWhile_imp hc⟩
              · exact List.dropWhile_eq_nil_iff.mp (List.isEmpty_iff.mp hl4)
            · exact absurd hp (by simp)
        · exact absurd hp (by simp)
  · rintro ⟨ws1, d1, ws2, sep, ws3, d2, ws4, rfl, hws1, hd1, hws2, hsep, hws3, hd2,
      hws4, rfl, rfl⟩
    have e0 : ((ws1 ++ d1 ++ ws2 ++ sep :: (ws3 ++ d2 ++ ws4)) :
        List Char).dropWhile Char.isWhitespace = d1 ++ ws2 ++ sep :: (ws3 ++ d2 ++ ws4) := by
      rw [List.append_assoc, List.append_assoc,
        dropWhile_append_run hws1 (head_not_space_of_digit_run hd1),
        ← List.append_assoc]
    have e1 : ((d1 ++ ws2 ++ sep :: (ws3 ++ d2 ++ ws4)) :
        List Char).takeWhile Char.isDigit = d1 := by
      rw [List.append_assoc,
        takeWhile_append_run hd1.2 (head_not_digit_of_space_sep hws2 hsep)]
    have e2 : ((d1 ++ ws2 ++ sep :: (ws3 ++ d2 ++ ws4)) :
        List Char).dropWhile Char.isDigit = ws2 ++ sep :: (ws3 ++ d2 ++ ws4) := by
      rw [List.append_assoc,
        dropWhile_append_run hd1.2 (head_not_digit_of_space_sep hws2 hsep)]
    have e3 : ((ws2 ++ sep :: (ws3 ++ d2 ++ ws4)) :
        List Char).dropWhile Char.isWhitespace = sep :: (ws3 ++ d2 ++ ws4) := by
      refine dropWhile_append_run hws2 ?_
      intro c hc
      simp only [List.head?_cons, Option.some.injEq] at hc
      exact hc ▸ sep_isWhitespace_eq_false hsep
    have e4 : ((ws3 ++ d2 ++ ws4) : List Char).dropWhile Char.isWhitespace =
        d2 ++ ws4 := by
      rw [List.append_assoc,
        dropWhile_append_run hws3 (head_not_space_of_digit_run hd2)]
    have e5 : ((d2 ++ ws4) : List Char).takeWhile Char.isDigit = d2 :=
      takeWhile_append_run hd2.2 (head_not_digit_of_space_run hws4)
    have e6 : ((d2 ++ ws4) : List Char).dropWhile Char.isDigit = ws4 :=
      dropWhile_append_run hd2.2 (head_not_digit_of_space_run hws4)
    have e7 : (ws4 : List Char).dropWhile Char.isWhitespace = [] :=
      List.dropWhile_eq_nil_iff.mpr hws4
    unfold resolutionParseList
    simp only [e0, e1, e2, e3, e4, e5, e6, e7,
      List.isEmpty_eq_false.mpr hd1.1, List.isEmpty_eq_false.mpr hd2.1,
      Bool.false_eq_true, if_false]
    rw [if_pos hsep]
    simp

/-- C4: every pair accepted by the dimension parser has both dimensions at
least 150; the regex matcher accepts exactly the full matches of
`\s*(\d+)\s*[x:]\s*(\d+)\s*`; a non-matching input raises the parse error; and
a matching input with a dimension below 150 raises the minimal-resolution
error. -/
theorem resolution_spec (s : String) :
    (∀ w h, resolution s = .ok (w, h) → 150 ≤ w ∧ 150 ≤ h) ∧
    (∀ w h, resolutionParse s = some (w, h) ↔ MatchesResolution s w h) ∧
    ((¬ ∃ w h, MatchesResolution s w h) →
      resolution s = .error "Unable to parse the resolution") ∧
    (∀ w h, MatchesResolution s w h → (w < 150 ∨ h < 150) →
      resolution s = .error "Minimal resolution is 150x150") := by
  have hiff : ∀ w h, resolutionParse s = some (w, h) ↔ MatchesResolution s w h :=
    fun w h => resolutionParseList_eq_some_iff s.data w h
  refine ⟨?_, hiff, ?_, ?_⟩
  · intro w h hok
    unfold resolution at hok
    rcases hparse : resolutionParse s with _ | ⟨w', h'⟩
    · rw [hparse] at hok
      exact absurd hok (by simp)
    · rw [hparse] at hok
      replace hok : (if w' < 150 ∨ h' < 150 then
            (Except.error "Minimal resolution is 150x150" : Except String (ℕ × ℕ))
          else .ok (w', h')) = .ok (w, h) := hok
      by_cases hlt : w' < 150 ∨ h' < 150
      · rw [if_pos hlt] at hok
        exact absurd hok (by simp)
      · rw [if_neg hlt] at hok
        push_neg at hlt
        obtain ⟨hw, hh⟩ := Prod.mk.inj (Except.ok.inj hok)
        exact ⟨hw ▸ hlt.1, hh ▸ hlt.2⟩
  · intro hnone
    rcases hparse : resolutionParse s with _ | ⟨w', h'⟩
    · unfold resolution
      rw [hparse]
    · exact absurd ⟨w', h', (hiff w' h').mp hparse⟩ hnone
  · intro w h hm hlt
    unfold resolution
    rw [(hiff w h).mpr hm]
    show (if w < 150 ∨ h < 150 then
        (Except.error "Minimal resolution is 150x150" : Except String (ℕ × ℕ))
      else .ok (w, h)) = .error "Minimal resolution is 150x150"
    rw [if_pos hlt]

/-- Witness for C4: the parser accepts "800x600" and both dimensions meet the
150 floor. -/
theorem resolution_spec_witness : 150 ≤ 800 ∧ 150 ≤ 600 :=
  (resolution_spec "800x600").1 800 600 rfl

/-- C2: the enumeration matcher resolves by three-tier precedence.  (a) An
input exactly equal to a canonical spelling returns that spelling.  (b) An
input whose lower-casing occurs exactly once among the lower-cased spellings
resolves to the canonical spelling with that lower-casing.  (c) An input whose
lower-casing occurs several times, matching none exactly, fails with the
ambiguous-choice error.  (d) Concretely, over `("aaa", "Aaa", "bbb")`: "aaa"
maps to "aaa", "BbB" maps to "bbb", and "aAa" is ambiguous. -/
theorem fix_casing_spec :
    (∀ names arg, arg ∈ names → cased names arg = .ok arg) ∧
    (∀ names arg, arg ∉ names → (lowNames names).count (strLower arg) = 1 →
      ∃ n, n ∈ names ∧ strLower n = strLower arg ∧ cased names arg = .ok n) ∧
    (∀ names arg, arg ∉ names → 2 ≤ (lowNames names).count (strLower arg) →
      ∃ cands, cased names arg = .error (.ambiguousChoice arg cands)) ∧
    (cased ["aaa", "Aaa", "bbb"] "aaa" = .ok "aaa" ∧
      cased ["aaa", "Aaa", "bbb"] "BbB" = .ok "bbb" ∧
      cased ["aaa", "Aaa", "bbb"] "aAa" =
        .error (.ambiguousChoice "aAa" ["aaa", "Aaa"])) := by
  refine ⟨?_, ?_, ?_, rfl, rfl, rfl⟩
  · intro names arg hmem
    have hlow : strLower arg ∈ lowNames names := List.mem_map_of_mem strLower hmem
    have hidx : names.indexOf arg < names.length := List.indexOf_lt_length.mpr hmem
    unfold cased
    rw [if_neg (not_not_intro hlow), if_pos hmem,
      List.getD_eq_getElem names "" hidx, List.getElem_indexOf hidx]
  · intro names arg hnot hcount
    have hlow : strLower arg ∈ lowNames names := by
      rw [← List.count_pos_iff]
      omega
    have hidx : (lowNames names).indexOf (strLower arg) < (lowNames names).length :=
      List.indexOf_lt_length.mpr hlow
    have hlen : (lowNames names).length = names.length := List.length_map names strLower
    have hidx' : (lowNames names).indexOf (strLower arg) < names.length := hlen ▸ hidx
    refine ⟨names.getD ((lowNames names).indexOf (strLower arg)) "", ?_, ?_, ?_⟩
    · rw [List.getD_eq_getElem names "" hidx']
      exact List.getElem_mem hidx'
    · rw [List.getD_eq_getElem names "" hidx']
      have hmap : (lowNames names)[(lowNames names).indexOf (strLower arg)] =
          strLower names[(lowNames names).indexOf (strLower arg)] :=
        List.getElem_map strLower
      rw [← hmap, List.getElem_indexOf hidx]
    · have hdup : isDuplicateLow names (strLower arg) = false := by
        simp only [isDuplicateLow, hcount, decide_eq_false_iff_not]
        omega
      unfold cased
      rw [if_neg (not_not_intro hlow), if_neg hnot, if_pos hdup]
  · intro names arg hnot hcount
    have hlow : strLower arg ∈ lowNames names := by
      rw [← List.count_pos_iff]
      omega
    have hdup : ¬ isDuplicateLow names (strLower arg) = false := by
      simp only [isDuplicateLow, decide_eq_false_iff_not, not_not]
      omega
    refine ⟨names.filter fun name =>
      isDuplicateLow names (strLower name) && (strLower name == strLower arg), ?_⟩
    unfold cased
    rw [if_neg (not_not_intro hlow), if_neg hnot, if_neg hdup]

/-- Any color returned by the inner overlay re-draw loop satisfies the
overlay-contrast threshold. -/
theorem overlayLoop_contrast {Color : Type} (contrast : Color → Color → ℚ)
    (o : Color) (oc : ℚ) :
    ∀ draws c c' draws',
      overlayLoop contrast o oc c draws = some (c', draws') →
      oc ≤ contrast c' o := by
  intro draws
  induction draws with
  | nil =>
    intro c c' draws' h
    unfold overlayLoop at h
    by_cases hc : contrast c o < oc
    · rw [if_pos hc] at h
      exact absurd h (by simp)
    · rw [if_neg hc] at h
      obtain ⟨h1, -⟩ := Prod.mk.inj (Option.some.inj h)
      exact h1 ▸ not_lt.mp hc
  | cons d rest ih =>
    intro c c' draws' h
    unfold overlayLoop at h
    by_cases hc : contrast c o < oc
    · rw [if_pos hc] at h
      exact ih d c' draws' h
    · rw [if_neg hc] at h
      obtain ⟨h1, -⟩ := Prod.mk.inj (Option.some.inj h)
      exact h1 ▸ not_lt.mp hc

/-- A `resolved` outcome of the highlight step keeps the background color and
produces the highlight by inversion (under the `inverted` sentinel) or as the
parsed explicit `color2` (otherwise). -/
theorem resolveHighlight_resolved {Color : Type} (invert : Color → ℚ → Option Color)
    (inverted : Bool) (mc : ℚ) (color2Parsed : Option Color) (c : Color)
    (draws : List Color) (r r2 : Color)
    (h : resolveHighlight invert inverted mc color2Parsed c draws =
      .inl (.resolved r r2)) :
    r = c ∧ (inverted = true → invert c mc = some r2) ∧
      (inverted = false → color2Parsed = some r2) := by
  unfold resolveHighlight at h
  by_cases hb : inverted = true
  · rw [if_pos hb] at h
    split at h
    · rename_i c2 hinv
      obtain ⟨rfl, rfl⟩ := ResolveOutcome.resolved.inj (Sum.inl.inj h)
      exact ⟨rfl, fun _ => hinv, fun hf => absurd hf (by simp [hb])⟩
    · split at h
      · exact absurd h (by simp)
      · exact absurd h (by simp)
  · rw [if_neg hb] at h
    split at h
    · exact absurd h (by simp)
    · rename_i x c2
      obtain ⟨rfl, rfl⟩ := ResolveOutcome.resolved.inj (Sum.inl.inj h)
      exact ⟨rfl, fun ht => absurd ht hb, fun _ => rfl⟩

/-- A `resolved` outcome of a single loop iteration satisfies the active
overlay constraint and the highlight-step properties. -/
theorem resolveIter_resolved {Color : Type} (contrast : Color → Color → ℚ)
    (invert : Color → ℚ → Option Color) (random inverted : Bool)
    (overlay : Option Color) (oc mc : ℚ) (color2Parsed : Option Color)
    (c : Color) (draws : List Color) (r r2 : Color)
    (h : resolveIter contrast invert random inverted overlay oc mc color2Parsed
      c draws = .inl (.resolved r r2)) :
    (∀ o, overlay = some o → oc ≤ contrast r o) ∧
      (inverted = true → invert r mc = some r2) ∧
      (inverted = false → color2Parsed = some r2) := by
  unfold resolveIter at h
  split at h
  · obtain ⟨rfl, h2, h3⟩ :=
      resolveHighlight_resolved invert inverted mc color2Parsed c draws r r2 h
    exact ⟨fun o ho => absurd ho (by simp), h2, h3⟩
  · rename_i o
    split at h
    · exact absurd h (by simp)
    · split at h
      · exact absurd h (by simp)
      · rename_i c' draws' hov
        obtain ⟨rfl, h2, h3⟩ :=
          resolveHighlight_resolved invert inverted mc color2Parsed c' draws' r r2 h
        refine ⟨fun o' ho' => ?_, h2, h3⟩
        obtain rfl := Option.some.inj ho'
        exact overlayLoop_contrast contrast o oc draws c r draws' hov

/-- Loop invariant of `resolveLoop`: a `resolved` outcome satisfies the active
overlay constraint, and its second color is the inversion of the first (when
the `inverted` sentinel is active) or the parsed explicit `color2`
(otherwise). -/
theorem resolveLoop_resolved {Color : Type} (contrast : Color → Color → ℚ)
    (invert : Color → ℚ → Option Color) (random inverted : Bool)
    (overlay : Option Color) (oc mc : ℚ) (color2Parsed : Option Color) :
    ∀ fuel c draws r r2,
      resolveLoop contrast invert random inverted overlay oc mc color2Parsed
        fuel c draws = .resolved r r2 →
      (∀ o, overlay = some o → oc ≤ contrast r o) ∧
        (inverted = true → invert r mc = some r2) ∧
        (inverted = false → color2Parsed = some r2) := by
  intro fuel
  induction fuel with
  | zero =>
    intro c draws r r2 h
    exact absurd h (by simp [resolveLoop])
  | succ fuel ih =>
    intro c draws r r2 h
    unfold resolveLoop at h
    split at h
    · rename_i out hout
      subst h
      exact resolveIter_resolved contrast invert random inverted overlay oc mc
        color2Parsed c draws r r2 hout
    · rename_i d rest hiter
      exact ih d rest r r2 h

/-- One unfolding of the retry loop. -/
theorem resolveLoop_succ {Color : Type} (contrast : Color → Color → ℚ)
    (invert : Color → ℚ → Option Color) (random inverted : Bool)
    (overlay : Option Color) (oc mc : ℚ) (color2Parsed : Option Color)
    (fuel : ℕ) (c : Color) (draws : List Color) :
    resolveLoop contrast invert random inverted overlay oc mc color2Parsed
        (fuel + 1) c draws =
      match resolveIter contrast invert random inverted overlay oc mc color2Parsed
          c draws with
      | .inl out => out
      | .inr (d, rest) =>
        resolveLoop contrast invert random inverted overlay oc mc color2Parsed
          fuel d rest := rfl

/-- With a pinned (non-random) background below the overlay threshold, a loop
iteration is immediately the fatal contrast error. -/
theorem resolveIter_fatal {Color : Type} (contrast : Color → Color → ℚ)
    (invert : Color → ℚ → Option Color) (inverted : Bool) (o c : Color)
    (oc mc : ℚ) (color2Parsed : Option Color) (draws : List Color)
    (hlt : contrast c o < oc) :
    resolveIter contrast invert false inverted (some o) oc mc color2Parsed c
        draws = .inl (.fatalContrast c o (contrast c o)) := by
  simp only [resolveIter]
  rw [if_pos ⟨trivial, hlt⟩]

/-- C1: whenever the color-resolution phase of `get_options` returns (rather
than raising or diverging), the returned pair satisfies every active contrast
constraint: a present overlay color has contrast at least `overlay_contrast`
with the final background — the constraint is re-checked on every loop
iteration, including after a background re-draw caused by an inversion
failure — and under the "inverted" sentinel the final `color2` is the
inversion of the final background at `min_contrast`. -/
theorem get_options_contrast_constraints {Color : Type}
    (contrast : Color → Color → ℚ) (invert : Color → ℚ → Option Color)
    (fromStr : String → Option Color) (colorSpec color2Spec : String)
    (overlay : Option Color) (oc mc : ℚ) (fuel : ℕ) (draws : List Color)
    (r r2 : Color)
    (h : resolveColors contrast invert fromStr colorSpec color2Spec overlay oc mc
      fuel draws = .resolved r r2) :
    (∀ o, overlay = some o → oc ≤ contrast r o) ∧
      (normalized color2Spec = "inverted" → invert r mc = some r2) := by
  unfold resolveColors at h
  by_cases hr : (normalized colorSpec == "random") = true
  · rw [if_pos hr] at h
    rcases draws with _ | ⟨d, rest⟩
    · exact absurd h (by simp)
    · have hres := resolveLoop_resolved contrast invert true
        (normalized color2Spec == "inverted") overlay oc mc (fromStr color2Spec)
        fuel d rest r r2 h
      exact ⟨hres.1, fun hs => hres.2.1 (by simp [hs])⟩
  · rw [if_neg hr] at h
    rcases hfs : fromStr colorSpec with _ | c
    · rw [hfs] at h
      exact absurd h (by simp)
    · rw [hfs] at h
      have hres := resolveLoop_resolved contrast invert false
        (normalized color2Spec == "inverted") overlay oc mc (fromStr color2Spec)
        fuel c draws r r2 h
      exact ⟨hres.1, fun hs => hres.2.1 (by simp [hs])⟩

/-- Witness for C1 on the toy color space: an explicit background "c7",
the "inverted" highlight sentinel and overlay color 0 with threshold 3
resolve to `(7, 8)`, which meets the overlay threshold and is related by the
toy inversion. -/
theorem get_options_contrast_constraints_witness :
    (3 : ℚ) ≤ contrastW 7 0 ∧ invertW 7 1 = some 8 :=
  ⟨((get_options_contrast_constraints contrastW invertW fromStrW "c7" "inverted"
      (some 0) 3 1 1 [] 7 8 (by decide)).1) 0 rfl,
    ((get_options_contrast_constraints contrastW invertW fromStrW "c7" "inverted"
      (some 0) 3 1 1 [] 7 8 (by decide)).2) rfl⟩

/-- C3: with a pinned (non-"random") background spec, an overlay color whose
contrast with the background is below `overlay_contrast`, resolution raises
the fatal error on the very first iteration — for every fuel and every stream
of random draws, so no retry or re-sampling ever happens — and the error
carries both colors and their measured contrast. -/
theorem fatal_pinned_overlay {Color : Type} (contrast : Color → Color → ℚ)
    (invert : Color → ℚ → Option Color) (fromStr : String → Option Color)
    (colorSpec color2Spec : String) (o c : Color) (oc mc : ℚ)
    (hns : ¬ normalized colorSpec = "random")
    (hc : fromStr colorSpec = some c)
    (hlt : contrast c o < oc) :
    ∀ fuel draws,
      resolveColors contrast invert fromStr colorSpec color2Spec (some o) oc mc
        (fuel + 1) draws = .fatalContrast c o (contrast c o) := by
  intro fuel draws
  have hr : (normalized colorSpec == "random") = false := by
    simp [hns]
  unfold resolveColors
  rw [hr]
  simp only [Bool.false_eq_true, if_false, hc]
  rw [resolveLoop_succ,
    resolveIter_fatal contrast invert (normalized color2Spec == "inverted") o c
      oc mc (fromStr color2Spec) draws hlt]

/-- Witness for C3 on the toy color space: background "c7" (color 7) against
overlay color 100 has contrast 93, below the requested 95, so resolution is
the fatal error, even with random draws available. -/
theorem fatal_pinned_overlay_witness :
    resolveColors contrastW invertW fromStrW "c7" "c1" (some 100) 95 1 1 [3, 4] =
      .fatalContrast 7 100 (contrastW 7 100) :=
  fatal_pinned_overlay contrastW invertW fromStrW "c7" "c1" 100 7 95 1
    (by decide) rfl (by decide) 0 [3, 4]

/-- C7: with explicit (non-sentinel) `color` and `color2` specs and no overlay,
resolution returns exactly the two parsed colors, for every fuel and every
stream of random draws — in particular with an empty stream, so the random
color source is never consulted. -/
theorem resolver_identity {Color : Type} (contrast : Color → Color → ℚ)
    (invert : Color → ℚ → Option Color) (fromStr : String → Option Color)
    (colorSpec color2Spec : String) (c c2 : Color) (oc mc : ℚ)
    (hns : ¬ normalized colorSpec = "random")
    (hni : ¬ normalized color2Spec = "inverted")
    (hc : fromStr colorSpec = some c)
    (hc2 : fromStr color2Spec = some c2) :
    ∀ fuel draws,
      resolveColors contrast invert fromStr colorSpec color2Spec none oc mc
        (fuel + 1) draws = .resolved c c2 := by
  intro fuel draws
  have hr : (normalized colorSpec == "random") = false := by
    simp [hns]
  have hi : (normalized color2Spec == "inverted") = false := by
    simp [hni]
  unfold resolveColors
  rw [hr]
  simp only [Bool.false_eq_true, if_false, hc]
  rw [resolveLoop_succ]
  have hstep : resolveIter contrast invert false
      (normalized color2Spec == "inverted") none oc mc (fromStr color2Spec) c
      draws = .inl (.resolved c c2) := by
    simp only [resolveIter, resolveHighlight, hi, Bool.false_eq_true, if_false,
      hc2]
  rw [hstep]

/-- Witness for C7 on the toy color space: explicit specs "c1" and "c7" with no
overlay resolve to `(1, 7)` with an empty draw stream. -/
theorem resolver_identity_witness :
    resolveColors contrastW invertW fromStrW "c1" "c7" none 1 1 1 [] =
      .resolved 1 7 :=
  resolver_identity contrastW invertW fromStrW "c1" "c7" 1 7 1 1
    (by decide) (by decide) rfl rfl 0 []

/-- C9: with an explicit background spec, the "inverted" highlight sentinel and
an overlay present, an inversion failure replaces the pinned background by a
random draw, and the next iteration applies the fatal pinned-incompatibility
check to that draw (the `random` flag still reflects the original spec): when
the re-drawn color's contrast with the overlay is below `overlay_contrast`,
resolution raises the fatal error — naming the re-drawn color the user never
specified — instead of re-sampling. -/
theorem inversion_failure_hits_pinned_check {Color : Type}
    (contrast : Color → Color → ℚ) (invert : Color → ℚ → Option Color)
    (fromStr : String → Option Color) (colorSpec color2Spec : String)
    (o c d : Color) (oc mc : ℚ)
    (hns : ¬ normalized colorSpec = "random")
    (hs2 : normalized color2Spec = "inverted")
    (hc : fromStr colorSpec = some c)
    (hok : oc ≤ contrast c o)
    (hinv : invert c mc = none)
    (hd : contrast d o < oc) :
    ∀ fuel rest,
      resolveColors contrast invert fromStr colorSpec color2Spec (some o) oc mc
        (fuel + 2) (d :: rest) = .fatalContrast d o (contrast d o) := by
  intro fuel rest
  have hr : (normalized colorSpec == "random") = false := by
    simp [hns]
  have hi : (normalized color2Spec == "inverted") = true := by
    simp [hs2]
  unfold resolveColors
  rw [hr]
  simp only [Bool.false_eq_true, if_false, hc]
  have hov : overlayLoop contrast o oc c (d :: rest) = some (c, d :: rest) := by
    unfold overlayLoop
    rw [if_neg (not_lt.mpr hok)]
  have hiter1 : resolveIter contrast invert false
      (normalized color2Spec == "inverted") (some o) oc mc (fromStr color2Spec)
      c (d :: rest) = .inr (d, rest) := by
    simp only [resolveIter, resolveHighlight, hi, if_true, hov, hinv]
    rw [if_neg (by rintro ⟨-, hlt⟩; exact absurd hlt (not_lt.mpr hok))]
  rw [show fuel + 2 = (fuel + 1) + 1 from rfl, resolveLoop_succ, hiter1]
  show resolveLoop contrast invert false (normalized color2Spec == "inverted")
      (some o) oc mc (fromStr color2Spec) (fuel + 1) d rest =
    ResolveOutcome.fatalContrast d o (contrast d o)
  rw [resolveLoop_succ,
    resolveIter_fatal contrast invert (normalized color2Spec == "inverted") o d
      oc mc (fromStr color2Spec) rest hd]

/-- Witness for C9 on the toy color space: pinned background "c7" (color 7,
overlay contrast 7 ≥ 3) whose inversion at `min_contrast = 100` fails, with
next random draw 1 of overlay contrast 1 < 3, ends in the fatal error naming
color 1. -/
theorem inversion_failure_hits_pinned_check_witness :
    resolveColors contrastW invertW fromStrW "c7" "inverted" (some 0) 3 100 2
        [1] = .fatalContrast 1 0 (contrastW 1 0) :=
  inversion_failure_hits_pinned_check contrastW invertW fromStrW "c7" "inverted"
    0 7 1 3 100 (by decide) rfl rfl (by decide) (by decide) (by decide) 0 []

/-- Witness for C2: tier (a) on the docstring example `("One", "Two",
"Three")` with input "Two", and tier (b) with input "tHreE". -/
theorem fix_casing_spec_witness :
    cased ["One", "Two", "Three"] "Two" = .ok "Two" ∧
      ∃ n, n ∈ ["One", "Two", "Three"] ∧ strLower n = strLower "tHreE" ∧
        cased ["One", "Two", "Three"] "tHreE" = .ok n :=
  ⟨fix_casing_spec.1 ["One", "Two", "Three"] "Two" (by decide),
    fix_casing_spec.2.1 ["One", "Two", "Three"] "tHreE" (by decide) (by decide)⟩

/-- C8: end-to-end runs of the schema.  The argument list
`-r 800x600 -s 1 -f hex rgb` yields resolution (800, 600), scale 1 and
formats ["hex", "rgb"] (all other fields keeping their defaults); the list
`-r 100x200` fails in the dimension parser because 100 < 150; and with no
arguments every documented default applies — in particular formats is the
three-element list ["empty", "HEX", "rgb"], resolution is (1920, 1080) and
scale is 3. -/
theorem get_options_end_to_end :
    parseArgs {} ["-r", "800x600", "-s", "1", "-f", "hex", "rgb"] =
      .ok { resolution := (800, 600), scale := 1, formats := ["hex", "rgb"] } ∧
    parseArgs {} ["-r", "100x200"] =
      .error (.badResolution "Minimal resolution is 150x150") ∧
    parseArgs {} [] = .ok {} ∧
    ({} : Options).formats = ["empty", "HEX", "rgb"] ∧
    ({} : Options).resolution = (1920, 1080) ∧
    ({} : Options).scale = 3 := by
  exact ⟨by decide, by decide, rfl, rfl, rfl, rfl⟩

end CLI

